import Mathlib

/-!
Shallow embedding of the `squealogd` log-collection daemon
(`src/bin/squealogd.rs`) and proofs about its specification claims.

Strings are modelled as `List Char`; points in time and durations as `Int`
seconds; machine integers as `Nat`/`Int` with explicit range checks where
the Rust code's fixed-width types can fail conversion (`u8`, `i64`).
-/

namespace Squealog

/-! ## Characters and whitespace (Rust `char::is_whitespace`, `str::trim`) -/

/-- Rust `char::is_whitespace`: the Unicode White_Space code points. -/
def isRustWhitespace (c : Char) : Bool :=
  let n := c.toNat
  (9 ≤ n && n ≤ 13) || n == 32 || n == 133 || n == 160 || n == 0x1680 ||
  (0x2000 ≤ n && n ≤ 0x200A) || n == 0x2028 || n == 0x2029 ||
  n == 0x202F || n == 0x205F || n == 0x3000

/-- Rust `str::trim`: remove leading and trailing whitespace. -/
def rustTrim (l : List Char) : List Char :=
  List.rdropWhile isRustWhitespace (l.dropWhile isRustWhitespace)

/-! ## The normalized message record (`syslog_loose::Message`) -/

/-- `syslog_loose::Protocol`. -/
inductive Protocol where
  | RFC3164 : Protocol
  | RFC5424 : Nat → Protocol
deriving DecidableEq

/-- `syslog_loose::ProcId`: a numeric pid or a textual process name. -/
inductive ProcId where
  | PID : Int → ProcId
  | Name : List Char → ProcId
deriving DecidableEq

/-- `syslog_loose::Message`: the normalized record produced by both
grammars. Facility and severity are the decoded small integers; the
timestamp is `Int` seconds. Structured data is not modelled (never set by
this program's kernel-log grammar and never persisted). -/
structure Message where
  protocol : Protocol
  facility : Option Nat
  severity : Option Nat
  timestamp : Option Int
  hostname : Option (List Char)
  appname : Option (List Char)
  procid : Option ProcId
  msgid : Option (List Char)
  msg : List Char
deriving DecidableEq

/-! ## nom-style parser combinators used by `parse_klog_line` -/

/-- A nom parser: on success, returns the remaining input and a value. -/
abbrev Parser (α : Type) : Type := List Char → Option (List Char × α)

/-- nom `tag`: match a literal token at the head of the input. -/
def tagP (t : List Char) : Parser Unit := fun i =>
  if i.take t.length = t then some (i.drop t.length, ()) else none

/-- nom `digit1`: one or more ASCII digits. -/
def digit1P : Parser (List Char) := fun i =>
  let ds := i.takeWhile Char.isDigit
  if ds.isEmpty then none else some (i.drop ds.length, ds)

/-- nom `map`. -/
def mapP {α β : Type} (p : Parser α) (f : α → β) : Parser β := fun i =>
  match p i with
  | some (r, v) => some (r, f v)
  | none => none

/-- nom `map_res`: apply a fallible conversion to a parsed value. -/
def mapResP {α β : Type} (p : Parser α) (f : α → Option β) : Parser β := fun i =>
  match p i with
  | some (r, v) =>
    match f v with
    | some b => some (r, b)
    | none => none
  | none => none

/-- nom `delimited`. -/
def delimitedP {α β γ : Type} (l : Parser α) (m : Parser β) (r : Parser γ) :
    Parser β := fun i =>
  match l i with
  | some (i1, _) =>
    match m i1 with
    | some (i2, b) =>
      match r i2 with
      | some (i3, _) => some (i3, b)
      | none => none
    | none => none
  | none => none

/-- nom `opt`: always succeeds, consuming nothing on inner failure. -/
def optP {α : Type} (p : Parser α) : Parser (Option α) := fun i =>
  match p i with
  | some (r, v) => some (r, some v)
  | none => some (i, none)

/-- nom `rest`: consume and return all remaining input. -/
def restP : Parser (List Char) := fun i => some ([], i)

/-! ## Digit-string conversions (`FromStr` for `u8` and `i64`) -/

/-- Numeric value of a digit string. -/
def natOfDigits (ds : List Char) : Nat :=
  ds.foldl (fun a c => a * 10 + (c.toNat - 48)) 0

/-- Rust `u8::from_str` on a digit string: fails above 255. -/
def u8FromDigits (ds : List Char) : Option Nat :=
  let n := natOfDigits ds
  if n ≤ 255 then some n else none

/-- Rust `i64::from_str` on a digit string: fails above `i64::MAX`. -/
def i64FromDigits (ds : List Char) : Option Nat :=
  let n := natOfDigits ds
  if n ≤ 9223372036854775807 then some n else none

/-! ## Priority decoding (`syslog_loose::decompose_pri`) -/

/-- `syslog_loose::decompose_pri` on a `u8` priority: facility is
`pri >> 3` when in the facility range 0..=23, severity is `pri & 7` when in
the severity range 0..=7. -/
def decompose_pri (pri : Nat) : Option Nat × Option Nat :=
  (if pri / 8 ≤ 23 then some (pri / 8) else none,
   if pri % 8 ≤ 7 then some (pri % 8) else none)

/-! ## The kernel-log grammar (`parse_klog_line`) -/

/-- The `<pri>` component: `delimited(tag("<"), map(digits, decompose_pri), tag(">"))`. -/
def priP : Parser (Option Nat × Option Nat) :=
  delimitedP (tagP ['<']) (mapP (mapResP digit1P u8FromDigits) decompose_pri)
    (tagP ['>'])

/-- The `[offset]` component: `delimited(tag("["), digits, tag("]"))`. -/
def offsetP : Parser Nat :=
  delimitedP (tagP ['[']) (mapResP digit1P i64FromDigits) (tagP [']'])

/-- The nom `tuple((map(opt(pri), unwrap_or), opt(offset), rest))` parser
from `parse_klog_line`. -/
def klogTupleP : Parser ((Option Nat × Option Nat) × Option Nat × List Char) :=
  fun i =>
  match optP priP i with
  | some (i1, priOpt) =>
    match optP offsetP i1 with
    | some (i2, off) =>
      match restP i2 with
      | some (i3, r) => some (i3, (priOpt.getD (none, none), off, r))
      | none => none
    | none => none
  | none => none

/-- The offset component extracted by the tuple parser, if any: the seconds
since boot carried by a `[offset]` bracket. -/
def klogOffset (i : List Char) : Option Nat :=
  match klogTupleP i with
  | some (_, _, off, _) => off
  | none => none

/-- `parse_klog_line`: run the tuple parser; on success build a Message with
the decoded pri, `boottime + offset` timestamp and trimmed remainder; on
failure (the `unwrap_or` branch) fall back to the whole input, untrimmed. -/
def parse_klog_line (input : List Char) (boottime : Int) : Message :=
  match klogTupleP input with
  | some (_, fs, off, r) =>
    { protocol := .RFC5424 69
      facility := fs.1
      severity := fs.2
      timestamp := off.map (fun n => boottime + (n : Int))
      hostname := none
      appname := none
      procid := none
      msgid := none
      msg := rustTrim r }
  | none =>
    { protocol := .RFC3164
      facility := none
      severity := none
      timestamp := none
      hostname := none
      appname := none
      procid := none
      msgid := none
      msg := input }

/-! ## The syslog grammar (`syslog_loose::parse_message`) -/

/-- Modelled from the spec: `syslog_loose::parse_message` is a third-party
crate whose source is not part of this repository; only its call sites are
in `src`. Following the spec's words, it "tries structured/legacy syslog
grammar first" — selected here by a recognizable `<pri>` prefix, decoded by
the same `decompose_pri` — and "if no recognizable prefix is present at
all, the entire buffer becomes the message body with every other field
unset". The structured branch's further field extraction (timestamp,
hostname, appname, procid, msgid) is beyond what the claims need and is
left unset. -/
def parse_message (input : List Char) : Message :=
  match priP input with
  | some (r, fs) =>
    { protocol := .RFC3164
      facility := fs.1
      severity := fs.2
      timestamp := none
      hostname := none
      appname := none
      procid := none
      msgid := none
      msg := rustTrim r }
  | none =>
    { protocol := .RFC3164
      facility := none
      severity := none
      timestamp := none
      hostname := none
      appname := none
      procid := none
      msgid := none
      msg := input }

/-! ## The ingestion sink (`ingest` closure, lines 94-112) -/

/-- One row of the `log` table: the columns bound by the INSERT statement. -/
structure Row where
  facility : Option Int
  severity : Option Int
  socket : List Char
  appname : Option (List Char)
  pid : Option Int
  time : Option Int
  msg : List Char
deriving DecidableEq

/-- The named-parameter bindings of the INSERT: facility/severity cast to
`i64`, numeric pids kept (`ProcId::PID`), textual ones dropped to null. -/
def rowOf (socket : List Char) (m : Message) : Row :=
  { facility := m.facility.map (fun x => (x : Int))
    severity := m.severity.map (fun x => (x : Int))
    socket := socket
    appname := m.appname
    pid := m.procid.bind (fun p =>
      match p with
      | .PID i => some i
      | .Name _ => none)
    time := m.timestamp
    msg := m.msg }

/-- `ingest`: execute the prepared INSERT, appending exactly one row to the
append-only store. The store is modelled as the list of rows in insertion
order. -/
def ingest (socket : List Char) (m : Message) (store : List Row) : List Row :=
  store ++ [rowOf socket m]

/-! ## Rust `str::lines` -/

/-- Split a character list at newline characters (every `\n` separates). -/
def splitNl : List Char → List (List Char)
  | [] => [[]]
  | c :: rest =>
    if c = '\n' then [] :: splitNl rest
    else
      match splitNl rest with
      | [] => [[c]]
      | l :: ls => (c :: l) :: ls

/-- Strip one trailing carriage return, as `str::lines` does for `\r\n`. -/
def stripCr (l : List Char) : List Char :=
  if l.getLast? = some '\r' then l.dropLast else l

/-- Rust `str::lines`: split at `\n`, drop the optional final empty segment
produced by a trailing newline, strip a trailing `\r` from each line. -/
def rustLines (s : List Char) : List (List Char) :=
  (if (splitNl s).getLast? = some [] then (splitNl s).dropLast else splitNl s).map
    stripCr

/-- Processing one kernel-log read buffer (lines 190-193): parse each line
in order and ingest it. -/
def processKlogBuffer (sock : List Char) (bt : Int) (store : List Row)
    (buf : List Char) : List Row :=
  (rustLines buf).foldl (fun st line => ingest sock (parse_klog_line line bt) st)
    store

/-! ## The read handlers of the dispatch loop (lines 172-200) -/

/-- The read buffer size: `let mut buf = vec![0u8; 8192]` (line 161). A
read returns at most this many units of data; the rest of a longer datagram
is discarded by the OS read primitive. -/
def BUF_SIZE : Nat := 8192

/-- Outcome of one OS read against a Source's handle. -/
inductive ReadResult where
  | ok : List Char → ReadResult
  | wouldBlock : ReadResult
  | otherErr : ReadResult
deriving DecidableEq

/-- What one read attempt in the dispatch loop does. -/
inductive DrainOutcome where
  | ingested : List Message → DrainOutcome
  | endDrain : DrainOutcome
  | panic : DrainOutcome
deriving DecidableEq

/-- The UDP / Unix-datagram arms (lines 173-184): `recv` into the 8192-byte
buffer and `.unwrap()` the result — any `Err`, including `WouldBlock`,
panics — then parse the received prefix as one syslog message. -/
def socketRead : ReadResult → DrainOutcome
  | .ok data => .ingested [parse_message (data.take BUF_SIZE)]
  | .wouldBlock => .panic
  | .otherErr => .panic

/-- The kernel-log arm (lines 186-198): on a successful read, parse and
ingest every line of the received prefix in order; `WouldBlock` breaks the
drain loop normally; any other error panics. -/
def klogRead (bt : Int) : ReadResult → DrainOutcome
  | .ok data =>
    .ingested ((rustLines (data.take BUF_SIZE)).map (fun l => parse_klog_line l bt))
  | .wouldBlock => .endDrain
  | .otherErr => .panic

/-! ## Source-registry construction (lines 114-133) -/

/-- Socket transport kinds taken from activation handles. -/
inductive TransportKind where
  | udp : TransportKind
  | unixDgram : TransportKind
deriving DecidableEq

/-- State of one activation-handle slot as seen by `listenfd`. -/
inductive FdSlot where
  | udp : FdSlot
  | unixDgram : FdSlot
  | claimed : FdSlot
  | incompatible : FdSlot
deriving DecidableEq

/-- One entry of the source registry: transport kind, readiness key
(`polling::Event::readable(i)`), origin name, non-blocking mode set. -/
structure LogSource where
  kind : TransportKind
  eventKey : Nat
  sockname : List Char
  nonblocking : Bool
deriving DecidableEq

/-- Taking slot `i`: `take_unix_datagram(i).map(...).or_else(|_| take_udp_socket(i)...)`.
An already-claimed (or absent) slot yields `Ok(None)`; a slot holding
neither socket type propagates the take error. -/
def takeSlot (fds : List FdSlot) (i : Nat) : Except (List Char) (Option TransportKind) :=
  match fds[i]? with
  | some .unixDgram => .ok (some .unixDgram)
  | some .udp => .ok (some .udp)
  | some .claimed => .ok none
  | some .incompatible => .error ("fd type mismatch".toList)
  | none => .ok none

/-- The registry loop body over `LISTEN_FDNAMES`, starting at index
`start`: take each slot, fail with "Socket used twice" on an
already-claimed slot, set non-blocking, push the source. -/
def buildSourcesAux (fds : List FdSlot) (start : Nat) :
    List (List Char) → Except (List Char) (List LogSource)
  | [] => .ok []
  | n :: rest =>
    match takeSlot fds start with
    | .error e => .error e
    | .ok none => .error ("Socket used twice".toList)
    | .ok (some k) =>
      match buildSourcesAux fds (start + 1) rest with
      | .error e => .error e
      | .ok srcs => .ok ({ kind := k, eventKey := start, sockname := n,
                           nonblocking := true } :: srcs)

/-- Source-registry construction from the named activation slots. -/
def buildSources (names : List (List Char)) (fds : List FdSlot) :
    Except (List Char) (List LogSource) :=
  buildSourcesAux fds 0 names

/-- Startup outcome: registry construction happens before the poller is
created and before any read; an error here means no I/O was attempted on
any Source. -/
inductive SetupOutcome where
  | startupError : List Char → SetupOutcome
  | running : List LogSource → SetupOutcome
deriving DecidableEq

/-- The `main` startup sequence up to the dispatch loop: construct the
registry; only on success proceed to the running (polling/reading) state. -/
def setup (names : List (List Char)) (fds : List FdSlot) : SetupOutcome :=
  match buildSources names fds with
  | .error e => .startupError e
  | .ok srcs => .running srcs

/-- A sample message with a textual (non-numeric) process identifier, used
to exercise the pid-dropping path of the sink. -/
def sampleNameMsg : Message :=
  { protocol := .RFC3164
    facility := some 4
    severity := some 2
    timestamp := some 100
    hostname := none
    appname := some ("app".toList)
    procid := some (.Name ("cron".toList))
    msgid := none
    msg := "hi".toList }

/-! ## Helper lemmas -/

/-- A suffix is a contiguous part. -/
theorem sub_of_suffix {α : Type} {l r : List α} (h : l <:+ r) : l <:+: r := by
  obtain ⟨s, hs⟩ := h
  exact ⟨s, [], by simp [hs]⟩

/-- A list-prefix is a contiguous part. -/
theorem sub_of_pre {α : Type} {l r : List α} (h : l <+: r) : l <:+: r := by
  obtain ⟨t, ht⟩ := h
  exact ⟨[], t, by simpa using ht⟩

/-- Contiguous parts compose. -/
theorem sub_trans {α : Type} {l m n : List α} (h1 : l <:+: m) (h2 : m <:+: n) :
    l <:+: n := by
  obtain ⟨a, b, hab⟩ := h1
  obtain ⟨c, d, hcd⟩ := h2
  exact ⟨c ++ a, b ++ d, by rw [← hcd, ← hab]; simp⟩

/-- A contiguous part of a list is a contiguous part of that list with one
more element in front. -/
theorem sub_cons {α : Type} {l r : List α} (c : α) (h : l <:+: r) :
    l <:+: c :: r := by
  obtain ⟨a, b, hab⟩ := h
  exact ⟨c :: a, b, by simp [hab]⟩

/-- `opt` never fails. -/
theorem optP_isSome {α : Type} (p : Parser α) (i : List Char) :
    ∃ r v, optP p i = some (r, v) := by
  unfold optP
  cases hp : p i with
  | none => exact ⟨i, none, rfl⟩
  | some rv => exact ⟨rv.1, some rv.2, by cases rv; rfl⟩

/-- The kernel-log tuple parser always succeeds: every component of the
leading structure is optional and `rest` cannot fail. -/
theorem klogTupleP_total (i : List Char) :
    ∃ rem fs off r, klogTupleP i = some (rem, (fs, off, r)) := by
  obtain ⟨i1, v1, h1⟩ := optP_isSome priP i
  obtain ⟨i2, v2, h2⟩ := optP_isSome offsetP i1
  refine ⟨[], v1.getD (none, none), v2, i2, ?_⟩
  unfold klogTupleP restP
  simp only [h1, h2]

/-- `tag` only consumes from the front: the remainder is a suffix. -/
theorem tagP_suffix (t : List Char) :
    ∀ i r v, tagP t i = some (r, v) → r <:+ i := by
  intro i r v h
  unfold tagP at h
  split at h
  · simp only [Option.some.injEq, Prod.mk.injEq] at h
    obtain ⟨h1, _⟩ := h
    subst h1
    exact ⟨i.take t.length, List.take_append_drop _ _⟩
  · cases h

/-- `digit1` only consumes from the front. -/
theorem digit1P_suffix :
    ∀ i r v, digit1P i = some (r, v) → r <:+ i := by
  intro i r v h
  unfold digit1P at h
  dsimp only at h
  split at h
  · cases h
  · simp only [Option.some.injEq, Prod.mk.injEq] at h
    obtain ⟨h1, _⟩ := h
    subst h1
    exact ⟨i.take (i.takeWhile Char.isDigit).length, List.take_append_drop _ _⟩

/-- `map` preserves the remainder. -/
theorem mapP_suffix {α β : Type} (p : Parser α) (f : α → β)
    (hp : ∀ i r v, p i = some (r, v) → r <:+ i) :
    ∀ i r v, mapP p f i = some (r, v) → r <:+ i := by
  intro i r v h
  unfold mapP at h
  cases hpi : p i with
  | none => simp [hpi] at h
  | some rv =>
    obtain ⟨r', v'⟩ := rv
    simp only [hpi, Option.some.injEq, Prod.mk.injEq] at h
    obtain ⟨h1, _⟩ := h
    subst h1
    exact hp i r' v' hpi

/-- `map_res` preserves the remainder when it succeeds. -/
theorem mapResP_suffix {α β : Type} (p : Parser α) (f : α → Option β)
    (hp : ∀ i r v, p i = some (r, v) → r <:+ i) :
    ∀ i r v, mapResP p f i = some (r, v) → r <:+ i := by
  intro i r v h
  unfold mapResP at h
  cases hpi : p i with
  | none => simp [hpi] at h
  | some rv =>
    obtain ⟨r', v'⟩ := rv
    simp only [hpi] at h
    cases hf : f v' with
    | none => simp [hf] at h
    | some b =>
      simp only [hf, Option.some.injEq, Prod.mk.injEq] at h
      obtain ⟨h1, _⟩ := h
      subst h1
      exact hp i r' v' hpi

/-- `opt` preserves the remainder. -/
theorem optP_suffix {α : Type} (p : Parser α)
    (hp : ∀ i r v, p i = some (r, v) → r <:+ i) :
    ∀ i r v, optP p i = some (r, v) → r <:+ i := by
  intro i r v h
  unfold optP at h
  cases hpi : p i with
  | none =>
    simp only [hpi, Option.some.injEq, Prod.mk.injEq] at h
    obtain ⟨h1, _⟩ := h
    subst h1
    exact ⟨[], rfl⟩
  | some rv =>
    obtain ⟨r', v'⟩ := rv
    simp only [hpi, Option.some.injEq, Prod.mk.injEq] at h
    obtain ⟨h1, _⟩ := h
    subst h1
    exact hp i r' v' hpi

/-- `delimited` preserves the suffix property of its three parts. -/
theorem delimitedP_suffix {α β γ : Type} (l : Parser α) (m : Parser β)
    (r : Parser γ)
    (hl : ∀ i rr v, l i = some (rr, v) → rr <:+ i)
    (hm : ∀ i rr v, m i = some (rr, v) → rr <:+ i)
    (hr : ∀ i rr v, r i = some (rr, v) → rr <:+ i) :
    ∀ i rr v, delimitedP l m r i = some (rr, v) → rr <:+ i := by
  intro i rr v h
  unfold delimitedP at h
  cases h1 : l i with
  | none => simp [h1] at h
  | some rv1 =>
    obtain ⟨i1, v1⟩ := rv1
    simp only [h1] at h
    cases h2 : m i1 with
    | none => simp [h2] at h
    | some rv2 =>
      obtain ⟨i2, v2⟩ := rv2
      simp only [h2] at h
      cases h3 : r i2 with
      | none => simp [h3] at h
      | some rv3 =>
        obtain ⟨i3, v3⟩ := rv3
        simp only [h3, Option.some.injEq, Prod.mk.injEq] at h
        obtain ⟨hrr, _⟩ := h
        subst hrr
        exact ((hr i2 i3 v3 h3).trans (hm i1 i2 v2 h2)).trans (hl i i1 v1 h1)

/-- The `<pri>` parser leaves a suffix of its input. -/
theorem priP_suffix : ∀ i r v, priP i = some (r, v) → r <:+ i :=
  delimitedP_suffix _ _ _ (tagP_suffix ['<'])
    (mapP_suffix _ _ (mapResP_suffix _ _ digit1P_suffix)) (tagP_suffix ['>'])

/-- The `[offset]` parser leaves a suffix of its input. -/
theorem offsetP_suffix : ∀ i r v, offsetP i = some (r, v) → r <:+ i :=
  delimitedP_suffix _ _ _ (tagP_suffix ['['])
    (mapResP_suffix _ _ digit1P_suffix) (tagP_suffix [']'])

/-- The remainder handed to `rest` by the kernel-log tuple parser is a
suffix of the original input. -/
theorem klogTupleP_rest_suffix :
    ∀ i rem fs off r, klogTupleP i = some (rem, (fs, off, r)) → r <:+ i := by
  intro i rem fs off r h
  obtain ⟨i1, v1, h1⟩ := optP_isSome priP i
  obtain ⟨i2, v2, h2⟩ := optP_isSome offsetP i1
  unfold klogTupleP restP at h
  simp only [h1, h2, Option.some.injEq, Prod.mk.injEq] at h
  obtain ⟨_, _, _, hr⟩ := h
  subst hr
  exact (optP_suffix offsetP offsetP_suffix i1 i2 v2 h2).trans
    (optP_suffix priP priP_suffix i i1 v1 h1)

/-- Dropping leading satisfiers of `p` from a list already free of them at
the front, after trimming its tail end, changes nothing. -/
theorem dropWhile_rdropWhile_of_self {α : Type} (p : α → Bool) (t : List α)
    (h : List.dropWhile p t = t) :
    List.dropWhile p (List.rdropWhile p t) = List.rdropWhile p t := by
  cases hu : List.rdropWhile p t with
  | nil => simp
  | cons c cs =>
    obtain ⟨s, hs⟩ := List.rdropWhile_prefix p t
    rw [hu] at hs
    have hpc : p c = false := by
      cases hpc' : p c with
      | false => rfl
      | true =>
        rw [← hs, List.cons_append, List.dropWhile_cons, hpc', if_pos rfl] at h
        have hle := (List.dropWhile_suffix (l := cs ++ s) p).length_le
        rw [h] at hle
        simp at hle
    rw [List.dropWhile_cons, hpc]
    simp

/-- `rustTrim` is idempotent: a trimmed string has no leading or trailing
whitespace left. -/
theorem rustTrim_idem (l : List Char) : rustTrim (rustTrim l) = rustTrim l := by
  unfold rustTrim
  rw [dropWhile_rdropWhile_of_self isRustWhitespace
        (l.dropWhile isRustWhitespace) (List.dropWhile_idempotent _ _)]
  exact List.rdropWhile_idempotent _ _

/-- The trimmed string is a contiguous part of the original. -/
theorem rustTrim_sub (l : List Char) : rustTrim l <:+: l := by
  unfold rustTrim
  have h1 := List.rdropWhile_prefix isRustWhitespace (l.dropWhile isRustWhitespace)
  have h2 := List.dropWhile_suffix (l := l) isRustWhitespace
  exact sub_trans (sub_of_pre h1) (sub_of_suffix h2)

/-- `splitNl` always yields a first segment that is a list-prefix of the
input, followed by segments that are contiguous parts of it. -/
theorem splitNl_shape :
    ∀ s : List Char, ∃ l0 ls, splitNl s = l0 :: ls ∧ l0 <+: s ∧
      ∀ x ∈ ls, x <:+: s := by
  intro s
  induction s with
  | nil => exact ⟨[], [], rfl, ⟨[], rfl⟩, by simp⟩
  | cons c rest ih =>
    obtain ⟨l0, ls, hsp, hpre, hmem⟩ := ih
    by_cases hc : c = '\n'
    · refine ⟨[], splitNl rest, by simp [splitNl, hc], ⟨c :: rest, rfl⟩, ?_⟩
      intro x hx
      rw [hsp] at hx
      rcases List.mem_cons.mp hx with hx | hx
      · subst hx
        exact sub_cons c (sub_of_pre hpre)
      · exact sub_cons c (hmem x hx)
    · refine ⟨c :: l0, ls, by simp [splitNl, hc, hsp], ?_, ?_⟩
      · obtain ⟨t, ht⟩ := hpre
        exact ⟨t, by simp [ht]⟩
      · intro x hx
        exact sub_cons c (hmem x hx)

/-- Every segment of `splitNl` is a contiguous part of the input. -/
theorem splitNl_mem_sub (s : List Char) : ∀ x ∈ splitNl s, x <:+: s := by
  obtain ⟨l0, ls, hsp, hpre, hmem⟩ := splitNl_shape s
  intro x hx
  rw [hsp] at hx
  rcases List.mem_cons.mp hx with hx | hx
  · subst hx
    exact sub_of_pre hpre
  · exact hmem x hx

/-- Stripping one trailing carriage return keeps a list-prefix. -/
theorem stripCr_pre (l : List Char) : stripCr l <+: l := by
  unfold stripCr
  split
  · rename_i h
    have hne : l ≠ [] := by
      intro he
      subst he
      simp at h
    exact ⟨[l.getLast hne], List.dropLast_append_getLast hne⟩
  · exact ⟨[], by simp⟩

/-- Every line produced by `rustLines` is a contiguous part of the input. -/
theorem rustLines_sub (s : List Char) : ∀ x ∈ rustLines s, x <:+: s := by
  intro x hx
  unfold rustLines at hx
  obtain ⟨y, hy, hxy⟩ := List.mem_map.mp hx
  have hy' : y ∈ splitNl s := by
    by_cases hcond : (splitNl s).getLast? = some []
    · rw [if_pos hcond] at hy
      exact List.dropLast_subset _ hy
    · rw [if_neg hcond] at hy
      exact hy
  subst hxy
  exact sub_trans (sub_of_pre (stripCr_pre y)) (splitNl_mem_sub s y hy')

/-- The kernel-log parser's message text is a contiguous part of its
input. -/
theorem parse_klog_msg_sub (input : List Char) (bt : Int) :
    (parse_klog_line input bt).msg <:+: input := by
  obtain ⟨rem, fs, off, r, h⟩ := klogTupleP_total input
  have hr : r <:+ input := klogTupleP_rest_suffix input rem fs off r h
  unfold parse_klog_line
  rw [h]
  exact sub_trans (rustTrim_sub r) (sub_of_suffix hr)

/-- The syslog parser's message text is a contiguous part of its input. -/
theorem parse_message_msg_sub (input : List Char) :
    (parse_message input).msg <:+: input := by
  unfold parse_message
  cases h : priP input with
  | none => exact ⟨[], [], by simp⟩
  | some rv =>
    obtain ⟨r, fs⟩ := rv
    have hr : r <:+ input := priP_suffix input r fs h
    exact sub_trans (rustTrim_sub r) (sub_of_suffix hr)

/-- Folding the sink over a list of lines appends exactly the corresponding
rows, in order. -/
theorem foldl_ingest_eq (sock : List Char) (bt : Int) :
    ∀ (ls : List (List Char)) (st : List Row),
      ls.foldl (fun s line => ingest sock (parse_klog_line line bt) s) st
        = st ++ ls.map (fun l => rowOf sock (parse_klog_line l bt)) := by
  intro ls
  induction ls with
  | nil => intro st; simp
  | cons hd tl ih =>
    intro st
    rw [List.foldl_cons, ih]
    simp [ingest, List.append_assoc]

/-- If every slot before `i` (relative to `start`) is available and the
slot at `i` is already claimed, registry construction fails with the
duplicate-handle error. -/
theorem buildSourcesAux_claimed (fds : List FdSlot) :
    ∀ (names : List (List Char)) (start i : Nat),
      i < names.length →
      (∀ j, j < i → ∃ k, takeSlot fds (start + j) = .ok (some k)) →
      takeSlot fds (start + i) = .ok none →
      buildSourcesAux fds start names = .error ("Socket used twice".toList) := by
  intro names
  induction names with
  | nil =>
    intro start i hi
    simp at hi
  | cons n rest ih =>
    intro start i hi hprev hcur
    cases i with
    | zero =>
      unfold buildSourcesAux
      rw [Nat.add_zero] at hcur
      rw [hcur]
    | succ i' =>
      obtain ⟨k, hk⟩ := hprev 0 (Nat.succ_pos i')
      rw [Nat.add_zero] at hk
      unfold buildSourcesAux
      rw [hk]
      have hrec : buildSourcesAux fds (start + 1) rest
          = .error ("Socket used twice".toList) := by
        refine ih (start + 1) i' (by simpa using hi) ?_ ?_
        · intro j hj
          obtain ⟨k', hk'⟩ := hprev (j + 1) (by omega)
          exact ⟨k', by rwa [show start + (j + 1) = start + 1 + j by omega] at hk'⟩
        · rwa [show start + (i' + 1) = start + 1 + i' by omega] at hcur
      rw [hrec]

/-! ## Claim theorems -/

/-- C1 (counterexample): the claim says a would-block read is treated as a
normal outcome for every Source, but the socket arms of the dispatch loop
call `.unwrap()` on `recv`, so a would-block result panics the process for
UDP and Unix-datagram Sources. -/
theorem socket_wouldblock_panics :
    socketRead ReadResult.wouldBlock = DrainOutcome.panic
      ∧ DrainOutcome.panic ≠ DrainOutcome.endDrain :=
  ⟨rfl, by decide⟩

/-- C1 (amended): only the kernel-log Source treats a would-block read as a
normal end of its drain cycle; for the socket Sources a would-block result
of `recv` is unwrapped and panics. -/
theorem wouldblock_drain_behavior :
    ∀ bt : Int,
      klogRead bt ReadResult.wouldBlock = DrainOutcome.endDrain
        ∧ socketRead ReadResult.wouldBlock = DrainOutcome.panic :=
  fun _ => ⟨rfl, rfl⟩

/-- C2: the syslog grammar is total — `parse_message` is a function into
`Message` — and whenever no recognizable `<pri>` structure is present, the
entire buffer becomes the message body with every other field unset. -/
theorem parse_message_total_fallback :
    ∀ input : List Char, priP input = none →
      (parse_message input).facility = none
      ∧ (parse_message input).severity = none
      ∧ (parse_message input).timestamp = none
      ∧ (parse_message input).hostname = none
      ∧ (parse_message input).appname = none
      ∧ (parse_message input).procid = none
      ∧ (parse_message input).msgid = none
      ∧ (parse_message input).msg = input := by
  intro input h
  simp [parse_message, h]

/-- C2 witness: a concrete unstructured buffer takes the fallback. -/
theorem parse_message_total_fallback_witness :
    priP ("hello".toList) = none
      ∧ ((parse_message ("hello".toList)).facility = none
        ∧ (parse_message ("hello".toList)).severity = none
        ∧ (parse_message ("hello".toList)).timestamp = none
        ∧ (parse_message ("hello".toList)).hostname = none
        ∧ (parse_message ("hello".toList)).appname = none
        ∧ (parse_message ("hello".toList)).procid = none
        ∧ (parse_message ("hello".toList)).msgid = none
        ∧ (parse_message ("hello".toList)).msg = "hello".toList) :=
  ⟨by decide, parse_message_total_fallback ("hello".toList) (by decide)⟩

/-- C3: on `"<11>[42]hello world"` with reference boot time `T` the
kernel-log grammar yields facility 1, severity 3, timestamp `T + 42` and
message text `"hello world"`; and in general the timestamp is present
exactly when an offset bracket was parsed, as `T + offset`. -/
theorem klog_example_timestamp :
    ∀ T : Int,
      ((parse_klog_line ("<11>[42]hello world".toList) T).facility = some 1
        ∧ (parse_klog_line ("<11>[42]hello world".toList) T).severity = some 3
        ∧ (parse_klog_line ("<11>[42]hello world".toList) T).timestamp
            = some (T + 42)
        ∧ (parse_klog_line ("<11>[42]hello world".toList) T).msg
            = "hello world".toList)
      ∧ ∀ input : List Char,
          (parse_klog_line input T).timestamp
            = (klogOffset input).map (fun n => T + (n : Int)) := by
  intro T
  refine ⟨⟨rfl, rfl, rfl, rfl⟩, ?_⟩
  intro input
  unfold parse_klog_line klogOffset
  obtain ⟨rem, fs, off, r, h⟩ := klogTupleP_total input
  rw [h]

/-- C4 (counterexample): an input whose leading structure matches neither
component is not returned verbatim — the nom success path trims it — so
"the entire original input becomes the message body" fails on an input with
surrounding whitespace. -/
theorem klog_fallback_not_identity :
    priP (" x".toList) = none
      ∧ offsetP (" x".toList) = none
      ∧ (parse_klog_line (" x".toList) 0).msg ≠ " x".toList := by
  decide

/-- C4 (amended): for every input whose leading structure matches neither
the `<pri>` prefix nor the `[offset]` bracket, facility, severity and
timestamp are all absent and the whitespace-trimmed input is the message
body; this is never an error and never drops a line. -/
theorem klog_unmatched_trimmed :
    ∀ (input : List Char) (bt : Int),
      priP input = none → offsetP input = none →
      (parse_klog_line input bt).facility = none
      ∧ (parse_klog_line input bt).severity = none
      ∧ (parse_klog_line input bt).timestamp = none
      ∧ (parse_klog_line input bt).msg = rustTrim input := by
  intro input bt h1 h2
  simp [parse_klog_line, klogTupleP, optP, restP, h1, h2]

/-- C4 witness: `"garbled nonsense"` has no recognizable prefix, trims to
itself, and comes back whole with all other fields unset. -/
theorem klog_unmatched_trimmed_witness :
    priP ("garbled nonsense".toList) = none
      ∧ offsetP ("garbled nonsense".toList) = none
      ∧ ((parse_klog_line ("garbled nonsense".toList) 0).facility = none
        ∧ (parse_klog_line ("garbled nonsense".toList) 0).severity = none
        ∧ (parse_klog_line ("garbled nonsense".toList) 0).timestamp = none
        ∧ (parse_klog_line ("garbled nonsense".toList) 0).msg
            = rustTrim ("garbled nonsense".toList))
      ∧ rustTrim ("garbled nonsense".toList) = "garbled nonsense".toList :=
  ⟨by decide, by decide,
    klog_unmatched_trimmed ("garbled nonsense".toList) 0 (by decide) (by decide),
    by decide⟩

/-- C5: for every valid combined priority (facility in 0..=23, severity in
0..=7, i.e. `pri ≤ 191`), the decoder returns facility `pri / 8 ≤ 23` and
severity `pri % 8 ≤ 7`, and `facility * 8 + severity` reconstructs `pri`
exactly. -/
theorem decompose_pri_roundtrip :
    ∀ pri : Nat, pri ≤ 191 →
      decompose_pri pri = (some (pri / 8), some (pri % 8))
      ∧ pri / 8 ≤ 23 ∧ pri % 8 ≤ 7
      ∧ (pri / 8) * 8 + pri % 8 = pri := by
  intro pri h
  refine ⟨?_, by omega, by omega, by omega⟩
  unfold decompose_pri
  rw [if_pos (by omega : pri / 8 ≤ 23), if_pos (by omega : pri % 8 ≤ 7)]

/-- C5 witness: priority 11 decodes to facility 1, severity 3 and
round-trips. -/
theorem decompose_pri_roundtrip_witness :
    11 ≤ 191
      ∧ (decompose_pri 11 = (some (11 / 8), some (11 % 8))
        ∧ 11 / 8 ≤ 23 ∧ 11 % 8 ≤ 7
        ∧ (11 / 8) * 8 + 11 % 8 = 11) :=
  ⟨by decide, decompose_pri_roundtrip 11 (by decide)⟩

/-- C6: ingesting a Message appends exactly one row whose columns match the
Message's fields; a numeric process id is stored as an integer and a
textual process identifier is dropped to null. -/
theorem ingest_one_row :
    ∀ (sock : List Char) (m : Message) (store : List Row),
      ingest sock m store = store ++ [rowOf sock m]
      ∧ (ingest sock m store).length = store.length + 1
      ∧ (rowOf sock m).socket = sock
      ∧ (rowOf sock m).facility = m.facility.map (fun x => (x : Int))
      ∧ (rowOf sock m).severity = m.severity.map (fun x => (x : Int))
      ∧ (rowOf sock m).appname = m.appname
      ∧ (rowOf sock m).time = m.timestamp
      ∧ (rowOf sock m).msg = m.msg
      ∧ (∀ i : Int, m.procid = some (ProcId.PID i) → (rowOf sock m).pid = some i)
      ∧ (∀ s : List Char,
          m.procid = some (ProcId.Name s) → (rowOf sock m).pid = none)
      ∧ (m.procid = none → (rowOf sock m).pid = none) := by
  intro sock m store
  refine ⟨rfl, by simp [ingest], rfl, rfl, rfl, rfl, rfl, rfl, ?_, ?_, ?_⟩
  · intro i h
    simp [rowOf, h]
  · intro s h
    simp [rowOf, h]
  · intro h
    simp [rowOf, h]

/-- C6 witness: ingesting a message with a textual process identifier adds
one row and stores a null pid. -/
theorem ingest_one_row_witness :
    (ingest ("u".toList) sampleNameMsg []).length
        = List.length ([] : List Row) + 1
      ∧ (rowOf ("u".toList) sampleNameMsg).pid = none := by
  have h := ingest_one_row ("u".toList) sampleNameMsg []
  exact ⟨h.2.1, h.2.2.2.2.2.2.2.2.2.1 ("cron".toList) rfl⟩

/-- C7: if the slots requested before index `i` are available but the slot
at `i` has already been claimed, registry construction fails with the
duplicate-handle error, and startup never reaches the running (I/O) state:
`setup` returns `startupError` without constructing any Source set. -/
theorem duplicate_handle_fails :
    ∀ (names : List (List Char)) (fds : List FdSlot) (i : Nat),
      i < names.length →
      (∀ j, j < i → ∃ k, takeSlot fds j = .ok (some k)) →
      takeSlot fds i = .ok none →
      buildSources names fds = .error ("Socket used twice".toList)
      ∧ setup names fds = .startupError ("Socket used twice".toList) := by
  intro names fds i hi hprev hcur
  have h : buildSources names fds = .error ("Socket used twice".toList) := by
    unfold buildSources
    exact buildSourcesAux_claimed fds names 0 i hi
      (fun j hj => by simpa using hprev j hj) (by simpa using hcur)
  refine ⟨h, ?_⟩
  unfold setup
  rw [h]

/-- C7 witness: two named slots where the second fd was already claimed. -/
theorem duplicate_handle_fails_witness :
    buildSources ["a".toList, "b".toList] [FdSlot.unixDgram, FdSlot.claimed]
        = .error ("Socket used twice".toList)
      ∧ setup ["a".toList, "b".toList] [FdSlot.unixDgram, FdSlot.claimed]
        = .startupError ("Socket used twice".toList) :=
  duplicate_handle_fails ["a".toList, "b".toList]
    [FdSlot.unixDgram, FdSlot.claimed] 1 (by decide)
    (fun j hj => by
      have hj0 : j = 0 := by omega
      subst hj0
      exact ⟨TransportKind.unixDgram, rfl⟩)
    rfl

/-- C8: lines within one kernel-log read buffer are parsed and ingested in
their order of appearance, and successive buffers are appended in read
order. -/
theorem klog_ingest_order :
    ∀ (sock : List Char) (bt : Int) (store : List Row) (b1 b2 : List Char),
      processKlogBuffer sock bt store b1
          = store ++ (rustLines b1).map (fun l => rowOf sock (parse_klog_line l bt))
      ∧ processKlogBuffer sock bt (processKlogBuffer sock bt store b1) b2
          = store
            ++ (rustLines b1).map (fun l => rowOf sock (parse_klog_line l bt))
            ++ (rustLines b2).map (fun l => rowOf sock (parse_klog_line l bt)) := by
  intro sock bt store b1 b2
  constructor
  · exact foldl_ingest_eq sock bt (rustLines b1) store
  · unfold processKlogBuffer
    rw [foldl_ingest_eq, foldl_ingest_eq]

/-- C9: the kernel-log tuple parser always succeeds (the untrimmed fallback
branch of `parse_klog_line` is unreachable), so the message text is
whitespace-trimmed on every path: trimming it again changes nothing. -/
theorem klog_msg_trimmed :
    ∀ (input : List Char) (bt : Int),
      (klogTupleP input).isSome = true
      ∧ rustTrim ((parse_klog_line input bt).msg)
          = (parse_klog_line input bt).msg := by
  intro input bt
  obtain ⟨rem, fs, off, r, h⟩ := klogTupleP_total input
  constructor
  · rw [h]
    rfl
  · unfold parse_klog_line
    rw [h]
    exact rustTrim_idem r

/-- C10: every read goes through the fixed 8192-byte buffer: the data
processed from a single read is exactly the first `BUF_SIZE` units of the
datagram (a prefix, of length at most `BUF_SIZE`); bytes beyond it are
discarded, and every ingested message text is contained in that truncated
prefix — for the one socket message and for every kernel-log line. -/
theorem read_truncation :
    ∀ (data : List Char) (bt : Int),
      socketRead (ReadResult.ok data)
          = DrainOutcome.ingested [parse_message (data.take BUF_SIZE)]
      ∧ (data.take BUF_SIZE).length ≤ BUF_SIZE
      ∧ data.take BUF_SIZE <+: data
      ∧ (parse_message (data.take BUF_SIZE)).msg <:+: data.take BUF_SIZE
      ∧ klogRead bt (ReadResult.ok data)
          = DrainOutcome.ingested
              ((rustLines (data.take BUF_SIZE)).map (fun l => parse_klog_line l bt))
      ∧ ∀ m ∈ (rustLines (data.take BUF_SIZE)).map (fun l => parse_klog_line l bt),
          m.msg <:+: data.take BUF_SIZE := by
  intro data bt
  refine ⟨rfl, ?_, ⟨data.drop BUF_SIZE, List.take_append_drop _ _⟩,
    parse_message_msg_sub _, rfl, ?_⟩
  · rw [List.length_take]
    exact min_le_left _ _
  · intro m hm
    obtain ⟨l, hl, hml⟩ := List.mem_map.mp hm
    subst hml
    exact sub_trans (parse_klog_msg_sub l bt) (rustLines_sub _ l hl)

/-- C10 witness: a concrete short kernel-log read; its single parsed
message text is contained in the (un-truncated) read prefix. -/
theorem read_truncation_witness :
    (parse_klog_line ("<1>[2]abc".toList) 0)
        ∈ (rustLines (("<1>[2]abc".toList).take BUF_SIZE)).map
            (fun l => parse_klog_line l 0)
      ∧ (parse_klog_line ("<1>[2]abc".toList) 0).msg
          <:+: ("<1>[2]abc".toList).take BUF_SIZE := by
  refine ⟨by decide, ?_⟩
  exact (read_truncation ("<1>[2]abc".toList) 0).2.2.2.2.2
    (parse_klog_line ("<1>[2]abc".toList) 0) (by decide)

end Squealog
